import Mathlib

/-!
Verification of the expense-tracker core
(`src/project/src/context/ExpenseContext.tsx`).

The store and query functions are embedded shallowly:

* A JavaScript `Date` is a millisecond timestamp; the code only ever
  builds and compares dates through their civil (calendar) decomposition
  in a fixed timezone.  We represent a date by its civil fields
  (year, month, day, millisecond-of-day) together with their validity
  bounds — which every `Date` produced by the program satisfies — and
  compare dates through `JsDate.key`, an integer that is strictly
  monotone in (and therefore order-isomorphic to) the millisecond
  timestamp on valid civil dates.
* `date-fns` helpers (`startOfMonth`, `endOfMonth`, `startOfDay`,
  `subDays`, `addMonths`) are given their calendar meaning directly on
  the civil fields; `subDays` steps the calendar back one day at a time.
* React state updates become explicit list passing; `localStorage` plus
  `JSON.stringify`/`JSON.parse` are modelled at the JSON-value level
  (a `Json` inductive), with `Date` values serialized through their
  ISO-8601 string form exactly as `Date.prototype.toISOString` prints
  them and re-parsed the way `new Date(string)` does.
-/

namespace ExpenseTracker

/-- The closed category set (`ExpenseContext.tsx`, line 4). -/
inductive Category where
  | Rental
  | Groceries
  | Entertainment
  | Travel
  | Others
deriving DecidableEq

/-- The closed payment-mode set (`ExpenseContext.tsx`, line 5). -/
inductive PaymentMode where
  | UPI
  | CreditCard
  | NetBanking
  | Cash
deriving DecidableEq

/-- The date-filter choices (`ExpenseContext.tsx`, line 6). -/
inductive DateFilter where
  | ThisMonth
  | Last30Days
  | Last90Days
  | AllTime
deriving DecidableEq

/-- Gregorian leap-year rule, as used by the JavaScript `Date` calendar. -/
def isLeap (y : Int) : Bool :=
  y % 4 == 0 && (y % 100 != 0 || y % 400 == 0)

/-- Number of days of month `m` (1-based) of year `y` in the Gregorian
calendar used by JavaScript `Date`. -/
def daysInMonth (y m : Int) : Int :=
  if m = 2 then (if isLeap y then 29 else 28)
  else if m = 4 ∨ m = 6 ∨ m = 9 ∨ m = 11 then 30
  else 31

theorem one_le_daysInMonth (y m : Int) : 1 ≤ daysInMonth y m := by
  unfold daysInMonth
  split
  · split <;> norm_num
  · split <;> norm_num

theorem daysInMonth_le_31 (y m : Int) : daysInMonth y m ≤ 31 := by
  unfold daysInMonth
  split
  · split <;> norm_num
  · split <;> norm_num

theorem daysInMonth_december (y : Int) : daysInMonth y 12 = 31 := by
  norm_num [daysInMonth]

/-- A JavaScript `Date`, represented by its civil calendar fields in the
program's (fixed) timezone.  Every `Date` the program constructs or
stores is a valid instant, so the bounds hold for all of them. -/
structure JsDate where
  year : Int
  month : Int
  day : Int
  ms : Int
  month_lb : 1 ≤ month
  month_ub : month ≤ 12
  day_lb : 1 ≤ day
  day_ub : day ≤ daysInMonth year month
  ms_lb : 0 ≤ ms
  ms_ub : ms < 86400000

theorem JsDate.ext_fields {a b : JsDate} (hy : a.year = b.year)
    (hm : a.month = b.month) (hd : a.day = b.day) (hms : a.ms = b.ms) :
    a = b := by
  cases a
  cases b
  simp only at hy hm hd hms
  subst hy hm hd hms
  rfl

instance : DecidableEq JsDate := fun a b =>
  if h : a.year = b.year ∧ a.month = b.month ∧ a.day = b.day ∧ a.ms = b.ms then
    Decidable.isTrue (JsDate.ext_fields h.1 h.2.1 h.2.2.1 h.2.2.2)
  else
    Decidable.isFalse (fun he => h (by subst he; exact ⟨rfl, rfl, rfl, rfl⟩))

/-- Milliseconds per day. -/
def msPerDay : Int := 86400000

/-- Index of the calendar month containing the date (months since
year 0, month January). -/
def JsDate.monthIdx (d : JsDate) : Int := 12 * d.year + (d.month - 1)

/-- Integer key that is strictly monotone in the date's millisecond
timestamp: comparing keys is comparing JavaScript `Date` values. -/
def JsDate.key (d : JsDate) : Int :=
  (d.monthIdx * 31 + (d.day - 1)) * msPerDay + d.ms

/-- Boolean `a <= b` on JavaScript dates (timestamp comparison). -/
def jsLeb (a b : JsDate) : Bool := decide (a.key ≤ b.key)

theorem jsLeb_iff (a b : JsDate) : jsLeb a b = true ↔ a.key ≤ b.key := by
  simp [jsLeb]

/-- `date-fns` `startOfMonth`: first day of the date's month, midnight. -/
def startOfMonth (d : JsDate) : JsDate :=
  ⟨d.year, d.month, 1, 0, d.month_lb, d.month_ub, le_refl 1,
    one_le_daysInMonth d.year d.month, le_refl 0, by norm_num⟩

/-- `date-fns` `endOfMonth`: last day of the date's month,
23:59:59.999. -/
def endOfMonth (d : JsDate) : JsDate :=
  ⟨d.year, d.month, daysInMonth d.year d.month, 86399999, d.month_lb,
    d.month_ub, one_le_daysInMonth d.year d.month, le_refl _, by norm_num,
    by norm_num⟩

/-- `date-fns` `startOfDay`: same calendar day, midnight. -/
def startOfDay (d : JsDate) : JsDate :=
  ⟨d.year, d.month, d.day, 0, d.month_lb, d.month_ub, d.day_lb, d.day_ub,
    le_refl 0, by norm_num⟩

/-- The previous calendar day (same time of day). -/
def prevDay (d : JsDate) : JsDate :=
  if h : 1 < d.day then
    ⟨d.year, d.month, d.day - 1, d.ms, d.month_lb, d.month_ub, by omega,
      by have := d.day_ub; omega, d.ms_lb, d.ms_ub⟩
  else if h2 : 1 < d.month then
    ⟨d.year, d.month - 1, daysInMonth d.year (d.month - 1), d.ms, by omega,
      by have := d.month_ub; omega, one_le_daysInMonth _ _, le_refl _,
      d.ms_lb, d.ms_ub⟩
  else
    ⟨d.year - 1, 12, 31, d.ms, by norm_num, le_refl _, by norm_num,
      by rw [daysInMonth_december], d.ms_lb, d.ms_ub⟩

/-- `date-fns` `subDays date n` shifts the calendar date back by `n`
days, modelled as `n` steps to the previous calendar day. -/
def subDays (d : JsDate) : Nat → JsDate
  | 0 => d
  | n + 1 => subDays (prevDay d) n

/-- `date-fns` `addMonths date n`: move the month index by `n`, keeping
the day of month (clamped to the target month's length) and the time of
day. -/
def addMonths (d : JsDate) (n : Int) : JsDate :=
  ⟨(12 * d.year + (d.month - 1) + n) / 12,
    (12 * d.year + (d.month - 1) + n) % 12 + 1,
    min d.day
      (daysInMonth ((12 * d.year + (d.month - 1) + n) / 12)
        ((12 * d.year + (d.month - 1) + n) % 12 + 1)),
    d.ms, by omega,
    by
      have : (12 * d.year + (d.month - 1) + n) % 12 < 12 :=
        Int.emod_lt_of_pos _ (by norm_num)
      omega,
    le_min d.day_lb (one_le_daysInMonth _ _), min_le_right _ _, d.ms_lb,
    d.ms_ub⟩

/-- An expense record (`ExpenseContext.tsx`, lines 8-15).  Amounts are
modelled as integers. -/
structure Expense where
  id : String
  amount : Int
  category : Category
  notes : String
  date : JsDate
  paymentMode : PaymentMode
deriving DecidableEq

/-- Remainder of `key` below the month radix. -/
theorem JsDate.key_decomp (d : JsDate) :
    d.key = d.monthIdx * (31 * msPerDay) + ((d.day - 1) * msPerDay + d.ms) := by
  unfold JsDate.key
  ring

theorem JsDate.rem_bounds (d : JsDate) :
    0 ≤ (d.day - 1) * msPerDay + d.ms ∧
      (d.day - 1) * msPerDay + d.ms < 31 * msPerDay := by
  have h1 := d.day_lb
  have h2 := d.day_ub
  have h3 := daysInMonth_le_31 d.year d.month
  have h4 := d.ms_lb
  have h5 := d.ms_ub
  unfold msPerDay at *
  constructor <;> nlinarith

/-- Key order refines month order: an earlier instant is in an earlier
or equal month. -/
theorem monthIdx_le_of_key_le {a b : JsDate} (h : a.key ≤ b.key) :
    a.monthIdx ≤ b.monthIdx := by
  by_contra hc
  push_neg at hc
  have ha := a.key_decomp
  have hb := b.key_decomp
  have hra := a.rem_bounds
  have hrb := b.rem_bounds
  have hm : b.monthIdx + 1 ≤ a.monthIdx := hc
  have : b.key < a.key := by
    calc b.key = b.monthIdx * (31 * msPerDay) + ((b.day - 1) * msPerDay + b.ms) := hb
    _ < b.monthIdx * (31 * msPerDay) + 31 * msPerDay := by omega
    _ = (b.monthIdx + 1) * (31 * msPerDay) := by ring
    _ ≤ a.monthIdx * (31 * msPerDay) := by
        have hpos : (0 : Int) < 31 * msPerDay := by norm_num [msPerDay]
        exact mul_le_mul_of_nonneg_right hm (le_of_lt hpos)
    _ ≤ a.key := by omega
  omega

theorem monthIdx_addMonths_one (d : JsDate) :
    (addMonths d 1).monthIdx = d.monthIdx + 1 := by
  show 12 * ((12 * d.year + (d.month - 1) + 1) / 12) +
      ((12 * d.year + (d.month - 1) + 1) % 12 + 1 - 1) = 12 * d.year +
      (d.month - 1) + 1
  omega

/-- Filter function of the store (`getFilteredExpenses`,
`ExpenseContext.tsx` lines 77-120).  The collection and the instant
`today = new Date()` (line 85) are explicit parameters; the
`[...expenses]` copy is the identity in a value model. -/
def getFilteredExpenses (expenses : List Expense) (today : JsDate)
    (dateFilter : DateFilter) (categories : List Category)
    (paymentModes : List PaymentMode) : List Expense :=
  let afterDate :=
    if dateFilter = DateFilter.ThisMonth then
      expenses.filter fun e =>
        jsLeb (startOfMonth today) e.date && jsLeb e.date (endOfMonth today)
    else if dateFilter = DateFilter.Last30Days then
      expenses.filter fun e => jsLeb (subDays (startOfDay today) 30) e.date
    else if dateFilter = DateFilter.Last90Days then
      expenses.filter fun e => jsLeb (subDays (startOfDay today) 90) e.date
    else expenses
  let afterCat :=
    if categories.length > 0 then
      afterDate.filter fun e => categories.contains e.category
    else afterDate
  if paymentModes.length > 0 then
    afterCat.filter fun e => paymentModes.contains e.paymentMode
  else afterCat

/-- One aggregate row (`MonthlyExpenseData`, `ExpenseContext.tsx` lines
17-20): the month label plus one numeric total per category key. -/
structure MonthlyExpenseData where
  month : String
  Rental : Int
  Groceries : Int
  Entertainment : Int
  Travel : Int
  Others : Int
deriving DecidableEq

/-- Short month name of `toLocaleDateString('en-US', { month: 'short' })`. -/
def monthShortName (m : Int) : String :=
  if m = 1 then "Jan" else if m = 2 then "Feb" else if m = 3 then "Mar"
  else if m = 4 then "Apr" else if m = 5 then "May" else if m = 6 then "Jun"
  else if m = 7 then "Jul" else if m = 8 then "Aug" else if m = 9 then "Sep"
  else if m = 10 then "Oct" else if m = 11 then "Nov" else "Dec"

/-- Month label `toLocaleDateString('en-US', { month: 'short', year:
'numeric' })` (line 141). -/
def monthLabel (d : JsDate) : String :=
  monthShortName d.month ++ " " ++ toString d.year

/-- `monthData[expense.category] += expense.amount` (line 160). -/
def addAmount (md : MonthlyExpenseData) (c : Category) (a : Int) :
    MonthlyExpenseData :=
  match c with
  | .Rental => { md with Rental := md.Rental + a }
  | .Groceries => { md with Groceries := md.Groceries + a }
  | .Entertainment => { md with Entertainment := md.Entertainment + a }
  | .Travel => { md with Travel := md.Travel + a }
  | .Others => { md with Others := md.Others + a }

/-- One iteration body of the month loop (lines 141-164): initialize all
categories to 0, then fold the `expenses.forEach` that adds each record
dated inside the entry's month into its category's bucket. -/
def monthEntry (expenses : List Expense) (cd : JsDate) : MonthlyExpenseData :=
  let monthStart := startOfMonth cd
  let monthEnd := endOfMonth cd
  expenses.foldl
    (fun md e =>
      if jsLeb monthStart e.date && jsLeb e.date monthEnd then
        addAmount md e.category e.amount
      else md)
    { month := monthLabel cd, Rental := 0, Groceries := 0,
      Entertainment := 0, Travel := 0, Others := 0 }

/-- The `while (currentDate <= endDate)` month loop (lines 140-168),
with `currentDate = addMonths(currentDate, 1)` as the step. -/
def buildMonths (expenses : List Expense) (endDate : JsDate)
    (cd : JsDate) : List MonthlyExpenseData :=
  if h : cd.key ≤ endDate.key then
    monthEntry expenses cd :: buildMonths expenses endDate (addMonths cd 1)
  else []
termination_by (endDate.monthIdx + 1 - cd.monthIdx).toNat
decreasing_by
  have h1 := monthIdx_le_of_key_le h
  have h2 := monthIdx_addMonths_one cd
  omega

/-- `Math.min` over date timestamps, as a binary minimum. -/
def jsMinD (a b : JsDate) : JsDate := if a.key ≤ b.key then a else b

/-- `Math.max` over date timestamps, as a binary maximum. -/
def jsMaxD (a b : JsDate) : JsDate := if b.key ≤ a.key then a else b

/-- Aggregation function of the store (`getMonthlyExpensesByCategory`,
`ExpenseContext.tsx` lines 122-171): empty collection short-circuits to
`[]`; otherwise run the month loop from the first day of the earliest
record's month to the last day of the latest record's month. -/
def getMonthlyExpensesByCategory (expenses : List Expense) :
    List MonthlyExpenseData :=
  match expenses with
  | [] => []
  | e0 :: rest =>
    let earliestDate := rest.foldl (fun acc e => jsMinD acc e.date) e0.date
    let latestDate := rest.foldl (fun acc e => jsMaxD acc e.date) e0.date
    buildMonths (e0 :: rest) (endOfMonth latestDate)
      (startOfMonth earliestDate)

/-- An expense as entered through the form: all fields except the
identifier (`Omit<Expense, 'id'>`). -/
structure ExpenseInput where
  amount : Int
  category : Category
  notes : String
  date : JsDate
  paymentMode : PaymentMode
deriving DecidableEq

/-- The record built by `addExpense` (lines 69-72): the input plus a
freshly generated identifier. -/
def mkExpense (input : ExpenseInput) (newId : String) : Expense :=
  ⟨newId, input.amount, input.category, input.notes, input.date,
    input.paymentMode⟩

/-- State transition of `addExpense` (lines 68-75):
`setExpenses(prev => [...prev, newExpense])`.  The identifier produced
by `crypto.randomUUID()` is an explicit parameter. -/
def addExpense (prev : List Expense) (input : ExpenseInput)
    (newId : String) : List Expense :=
  prev ++ [mkExpense input newId]

/-- Running a sequence of `addExpense` calls against a starting state,
each paired with the identifier its `crypto.randomUUID()` returned. -/
def applyAdds (start : List Expense) (adds : List (ExpenseInput × String)) :
    List Expense :=
  adds.foldl (fun st p => addExpense st p.1 p.2) start

/-! Persistence.  `localStorage` holds text; the program writes
`JSON.stringify(expenses)` and reads it back with `JSON.parse` followed
by a per-element `new Date(expense.date)`.  We model the stored text at
the JSON-value level: a slot is absent, holds text `JSON.parse` rejects,
or holds text that parses to a `Json` value.  Object keys produced by
the program are distinct, so objects are association lists. -/

/-- A JSON value, as produced by `JSON.parse`/consumed by
`JSON.stringify`.  Amounts are integers, so only string, number, array
and object shapes occur. -/
inductive Json where
  | str : String → Json
  | num : Int → Json
  | arr : List Json → Json
  | obj : List (String × Json) → Json

/-- Decimal digit character. -/
def digitChar (n : Nat) : Char :=
  if n = 0 then '0' else if n = 1 then '1' else if n = 2 then '2'
  else if n = 3 then '3' else if n = 4 then '4' else if n = 5 then '5'
  else if n = 6 then '6' else if n = 7 then '7' else if n = 8 then '8'
  else '9'

/-- Numeric value of a digit character. -/
def digitVal (c : Char) : Nat := c.toNat - 48

/-- Two-digit zero-padded decimal rendering. -/
def pad2 (n : Nat) : List Char := [digitChar (n / 10), digitChar (n % 10)]

/-- Three-digit zero-padded decimal rendering. -/
def pad3 (n : Nat) : List Char :=
  [digitChar (n / 100), digitChar (n / 10 % 10), digitChar (n % 10)]

/-- Four-digit zero-padded decimal rendering. -/
def pad4 (n : Nat) : List Char :=
  [digitChar (n / 1000), digitChar (n / 100 % 10), digitChar (n / 10 % 10),
    digitChar (n % 10)]

/-- Character list of `Date.prototype.toISOString`:
`YYYY-MM-DDTHH:mm:ss.sssZ` (four-digit years, i.e. years 0-9999). -/
def isoChars (d : JsDate) : List Char :=
  pad4 d.year.toNat ++ '-' :: pad2 d.month.toNat ++ '-' :: pad2 d.day.toNat
    ++ 'T' :: pad2 (d.ms.toNat / 3600000)
    ++ ':' :: pad2 (d.ms.toNat % 3600000 / 60000)
    ++ ':' :: pad2 (d.ms.toNat % 60000 / 1000)
    ++ '.' :: pad3 (d.ms.toNat % 1000) ++ ['Z']

/-- The ISO-8601 string a `Date` serializes to under `JSON.stringify`. -/
def isoString (d : JsDate) : String := String.mk (isoChars d)

/-- Parse `new Date(string)` for the full ISO form the program itself
writes; every other string yields an invalid date (`none`).  Field
values out of calendar range also yield an invalid date. -/
def parseIsoChars : List Char → Option JsDate
  | [y1, y2, y3, y4, s1, m1, m2, s2, d1, d2, t1, h1, h2, c1, i1, i2, c2,
      x1, x2, p1, q1, q2, q3, z1] =>
    if y1.isDigit && y2.isDigit && y3.isDigit && y4.isDigit && m1.isDigit
        && m2.isDigit && d1.isDigit && d2.isDigit && h1.isDigit
        && h2.isDigit && i1.isDigit && i2.isDigit && x1.isDigit
        && x2.isDigit && q1.isDigit && q2.isDigit && q3.isDigit
        && s1 == '-' && s2 == '-' && t1 == 'T' && c1 == ':' && c2 == ':'
        && p1 == '.' && z1 == 'Z' then
      let y : Nat := 1000 * digitVal y1 + 100 * digitVal y2
        + 10 * digitVal y3 + digitVal y4
      let mo : Nat := 10 * digitVal m1 + digitVal m2
      let dy : Nat := 10 * digitVal d1 + digitVal d2
      let hh : Nat := 10 * digitVal h1 + digitVal h2
      let mi : Nat := 10 * digitVal i1 + digitVal i2
      let ss : Nat := 10 * digitVal x1 + digitVal x2
      let qq : Nat := 100 * digitVal q1 + 10 * digitVal q2 + digitVal q3
      if h : 1 ≤ mo ∧ mo ≤ 12 ∧ 1 ≤ dy
          ∧ (dy : Int) ≤ daysInMonth (y : Int) (mo : Int) ∧ hh ≤ 23
          ∧ mi ≤ 59 ∧ ss ≤ 59 ∧ qq ≤ 999 then
        some ⟨(y : Int), (mo : Int), (dy : Int),
          (hh : Int) * 3600000 + (mi : Int) * 60000 + (ss : Int) * 1000
            + (qq : Int),
          by exact_mod_cast h.1, by exact_mod_cast h.2.1,
          by exact_mod_cast h.2.2.1, h.2.2.2.1, by positivity,
          by
            obtain ⟨-, -, -, -, h5, h6, h7, h8⟩ := h
            have : (hh : Int) ≤ 23 := by exact_mod_cast h5
            have : (mi : Int) ≤ 59 := by exact_mod_cast h6
            have : (ss : Int) ≤ 59 := by exact_mod_cast h7
            have : (qq : Int) ≤ 999 := by exact_mod_cast h8
            omega⟩
      else none
    else none
  | _ => none

/-- `new Date(s)` for a string `s`. -/
def parseDate (s : String) : Option JsDate := parseIsoChars s.data

/-- Category names as they appear in the serialized JSON. -/
def categoryName : Category → String
  | .Rental => "Rental"
  | .Groceries => "Groceries"
  | .Entertainment => "Entertainment"
  | .Travel => "Travel"
  | .Others => "Others"

/-- Payment-mode names as they appear in the serialized JSON. -/
def paymentModeName : PaymentMode → String
  | .UPI => "UPI"
  | .CreditCard => "Credit Card"
  | .NetBanking => "Net Banking"
  | .Cash => "Cash"

def categoryOfName (s : String) : Option Category :=
  if s = "Rental" then some .Rental
  else if s = "Groceries" then some .Groceries
  else if s = "Entertainment" then some .Entertainment
  else if s = "Travel" then some .Travel
  else if s = "Others" then some .Others
  else none

def paymentModeOfName (s : String) : Option PaymentMode :=
  if s = "UPI" then some .UPI
  else if s = "Credit Card" then some .CreditCard
  else if s = "Net Banking" then some .NetBanking
  else if s = "Cash" then some .Cash
  else none

/-- `JSON.stringify` of one expense record: its fields in declaration
order, the date as its ISO string. -/
def encodeExpense (e : Expense) : Json :=
  .obj [("id", .str e.id), ("amount", .num e.amount),
    ("category", .str (categoryName e.category)), ("notes", .str e.notes),
    ("date", .str (isoString e.date)),
    ("paymentMode", .str (paymentModeName e.paymentMode))]

/-- State of the `localStorage` slot named `expenses`. -/
inductive StoredSlot where
  | absent : StoredSlot
  | malformed : StoredSlot
  | value : Json → StoredSlot

/-- The save effect (`ExpenseContext.tsx` lines 64-66): the slot is
overwritten with `JSON.stringify(expenses)`, text that parses back to
the corresponding JSON array. -/
def saveExpenses (es : List Expense) : StoredSlot :=
  .value (.arr (es.map encodeExpense))

/-- What `expense.date` becomes in the load mapping: an invalid date
(`new Date` of `undefined`, of an unparsable string, or of a JSON shape
the model does not give a calendar meaning), a valid civil date, or a
raw-timestamp date (`new Date(number)`), kept symbolic. -/
inductive ParsedDateVal where
  | invalid : ParsedDateVal
  | ok : JsDate → ParsedDateVal
  | fromNum : Int → ParsedDateVal

/-- A record as the load effect actually builds it: the spread keeps
whatever fields the parsed object had (no validation), with `date`
replaced by the `new Date(...)` result. -/
structure LoadedExpense where
  fields : List (String × Json)
  date : ParsedDateVal

/-- Property read `o[k]` on a parsed JSON object. -/
def lookupField (fs : List (String × Json)) (k : String) : Option Json :=
  (fs.find? fun p => p.1 == k).map (·.2)

/-- `new Date(expense.date)` on the parsed JSON field. -/
def jsNewDate : Option Json → ParsedDateVal
  | some (.str s) =>
    match parseDate s with
    | some d => .ok d
    | none => .invalid
  | some (.num n) => .fromNum n
  | some (.arr _) => .invalid
  | some (.obj _) => .invalid
  | none => .invalid

/-- One element of the load mapping (lines 52-55):
`{ ...expense, date: new Date(expense.date) }`.  Never throws.  A
non-object element spreads to no fields. -/
def loadItem (j : Json) : LoadedExpense :=
  match j with
  | .obj fs => ⟨fs.filter fun p => !(p.1 == "date"),
      jsNewDate (lookupField fs "date")⟩
  | _ => ⟨[], jsNewDate none⟩

/-- Log line of the `catch` branch (line 58). -/
def loadErrorLog : String := "Failed to parse expenses from localStorage:"

/-- The load effect (lines 47-61): state of the store after startup and
the `console.error` lines emitted.  An absent slot leaves the initial
empty state; text `JSON.parse` rejects, or a parsed value without a
`.map` method (a non-array), throws, is caught, and leaves the empty
state with the failure logged; an array is mapped element-wise with no
field validation. -/
def loadExpenses : StoredSlot → List LoadedExpense × List String
  | .absent => ([], [])
  | .malformed => ([], [loadErrorLog])
  | .value (.arr items) => (items.map loadItem, [])
  | .value _ => ([], [loadErrorLog])

/-- Read a loaded record back as a typed expense (comparison apparatus
for the round-trip statement; not program code). -/
def decodeLoaded (le : LoadedExpense) : Option Expense :=
  match lookupField le.fields "id", lookupField le.fields "amount",
      lookupField le.fields "category", lookupField le.fields "notes",
      lookupField le.fields "paymentMode", le.date with
  | some (.str i), some (.num a), some (.str c), some (.str n),
      some (.str p), .ok d =>
    match categoryOfName c, paymentModeOfName p with
    | some cat, some pm => some ⟨i, a, cat, n, d, pm⟩
    | _, _ => none
  | _, _, _, _, _, _ => none

/-! Sample dates and records used in concrete instances. -/

def date20240115 : JsDate :=
  ⟨2024, 1, 15, 0, by decide, by decide, by decide, by decide, by decide,
    by decide⟩

def date20240310 : JsDate :=
  ⟨2024, 3, 10, 0, by decide, by decide, by decide, by decide, by decide,
    by decide⟩

def date20240229 : JsDate :=
  ⟨2024, 2, 29, 0, by decide, by decide, by decide, by decide, by decide,
    by decide⟩

def date20240315 : JsDate :=
  ⟨2024, 3, 15, 0, by decide, by decide, by decide, by decide, by decide,
    by decide⟩

def date20240331 : JsDate :=
  ⟨2024, 3, 31, 0, by decide, by decide, by decide, by decide, by decide,
    by decide⟩

def date20300101 : JsDate :=
  ⟨2030, 1, 1, 0, by decide, by decide, by decide, by decide, by decide,
    by decide⟩

/-- The record dated 2024-01-15, amount 100, category Groceries. -/
def exGroceries : Expense :=
  ⟨"id-1", 100, .Groceries, "weekly shop", date20240115, .UPI⟩

/-- The record dated 2024-03-10, amount 50, category Travel. -/
def exTravel : Expense :=
  ⟨"id-2", 50, .Travel, "bus", date20240310, .Cash⟩

/-! Store invariants (claim C2). -/

theorem applyAdds_eq_append (start : List Expense)
    (adds : List (ExpenseInput × String)) :
    applyAdds start adds = start ++ adds.map fun p => mkExpense p.1 p.2 := by
  induction adds generalizing start with
  | nil => simp [applyAdds]
  | cons a t ih =>
    simp only [applyAdds, List.foldl_cons, List.map_cons] at *
    rw [ih]
    simp [addExpense]

/-- Claim C2: starting from an empty store, a sequence of `addExpense`
calls (each with the fresh identifier `crypto.randomUUID()` produced,
assumed pairwise distinct) yields a collection of length `N` whose
identifiers are pairwise distinct, and whose `i`-th record is exactly
the record appended by the `i`-th call — so insertion order is
preserved and earlier records are never changed. -/
theorem addExpense_invariants (adds : List (ExpenseInput × String))
    (hids : (adds.map Prod.snd).Nodup) :
    (applyAdds [] adds).length = adds.length
      ∧ ((applyAdds [] adds).map Expense.id).Nodup
      ∧ ∀ i : Nat, (applyAdds [] adds)[i]? =
          (adds[i]?).map fun p => mkExpense p.1 p.2 := by
  rw [applyAdds_eq_append]
  refine ⟨by simp, ?_, ?_⟩
  · simpa [List.map_map, Function.comp, mkExpense] using hids
  · intro i
    simp [List.getElem?_map]

/-- Witness for claim C2 at a concrete two-call sequence. -/
theorem addExpense_invariants_witness :
    (applyAdds [] [(⟨100, .Groceries, "weekly shop", date20240115, .UPI⟩,
        "uuid-a"), (⟨50, .Travel, "bus", date20240310, .Cash⟩,
        "uuid-b")]).length = 2 :=
  (addExpense_invariants _ (by decide)).1

/-! Filter identities (claims C6 and C8). -/

/-- Claim C6: with an empty category set, an empty payment-mode set and
the all-time date filter, `getFilteredExpenses` returns the entire
collection in its original order. -/
theorem getFilteredExpenses_allTime_id (es : List Expense) (today : JsDate) :
    getFilteredExpenses es today DateFilter.AllTime [] [] = es := rfl

/-- Claim C8: both query functions are pure functions of their
arguments in the embedding — two calls with identical inputs are the
same value, and the input collection is a value the calls cannot
mutate. -/
theorem queries_pure (es : List Expense) (today : JsDate) (f : DateFilter)
    (cs : List Category) (ps : List PaymentMode) :
    getFilteredExpenses es today f cs ps = getFilteredExpenses es today f cs ps
      ∧ getMonthlyExpensesByCategory es = getMonthlyExpensesByCategory es :=
  ⟨rfl, rfl⟩

/-! Startup load behaviour (claims C5 and C10). -/

/-- Claim C5: at startup an absent slot leaves the store empty with
nothing logged; any stored value whose deserialization fails — text
`JSON.parse` rejects, or a parsed value that is not an array — leaves
the store empty and logs the failure.  `loadExpenses` is a total
function: no error propagates to the caller. -/
theorem load_failure_fallback :
    loadExpenses StoredSlot.absent = ([], [])
      ∧ loadExpenses StoredSlot.malformed = ([], [loadErrorLog])
      ∧ ∀ j : Json, (∀ items, j ≠ Json.arr items) →
          loadExpenses (StoredSlot.value j) = ([], [loadErrorLog]) := by
  refine ⟨rfl, rfl, fun j hj => ?_⟩
  cases j with
  | arr items => exact absurd rfl (hj items)
  | str s => rfl
  | num n => rfl
  | obj fs => rfl

/-- Witness for claim C5: a slot holding the JSON value `"oops"` (not
an array) falls back to the empty collection and logs. -/
theorem load_failure_fallback_witness :
    loadExpenses (StoredSlot.value (Json.str "oops")) = ([], [loadErrorLog]) :=
  load_failure_fallback.2.2 (Json.str "oops") fun _ h => Json.noConfusion h

/-- Claim C10: a stored value that is a JSON array is loaded element by
element with no field validation — the fallback to the empty store is
never taken — and an element with missing fields or an unparsable date
string still becomes a record, its date being the invalid-date value. -/
theorem load_no_validation :
    (∀ items : List Json,
        loadExpenses (StoredSlot.value (Json.arr items)) =
          (items.map loadItem, []))
      ∧ loadItem (Json.obj [("amount", Json.num 5)]) =
          ⟨[("amount", Json.num 5)], ParsedDateVal.invalid⟩
      ∧ loadItem (Json.obj [("id", Json.str "x"),
            ("date", Json.str "not-a-date")]) =
          ⟨[("id", Json.str "x")], ParsedDateVal.invalid⟩ :=
  ⟨fun _ => rfl, rfl, rfl⟩

/-! Date filters (claims C4 and C7). -/

/-- A date is between `startOfMonth t` and `endOfMonth t` (as the code
compares timestamps) exactly when it lies in `t`'s calendar month. -/
theorem month_mem_iff (t d : JsDate) :
    ((startOfMonth t).key ≤ d.key ∧ d.key ≤ (endOfMonth t).key) ↔
      (d.year = t.year ∧ d.month = t.month) := by
  have hs : (startOfMonth t).key =
      (12 * t.year + (t.month - 1)) * 31 * msPerDay := by
    show ((12 * t.year + (t.month - 1)) * 31 + (1 - 1)) * msPerDay + 0 = _
    ring
  have he : (endOfMonth t).key =
      (12 * t.year + (t.month - 1)) * 31 * msPerDay +
        (daysInMonth t.year t.month - 1) * msPerDay + 86399999 := by
    show ((12 * t.year + (t.month - 1)) * 31 +
      (daysInMonth t.year t.month - 1)) * msPerDay + 86399999 = _
    ring
  have hd : d.key = (12 * d.year + (d.month - 1)) * 31 * msPerDay +
      (d.day - 1) * msPerDay + d.ms := by
    show ((12 * d.year + (d.month - 1)) * 31 + (d.day - 1)) * msPerDay
      + d.ms = _
    ring
  have hb1 := d.month_lb
  have hb2 := d.month_ub
  have hb3 := t.month_lb
  have hb4 := t.month_ub
  have hb5 := d.day_lb
  have hb6 := d.day_ub
  have hb7 := daysInMonth_le_31 d.year d.month
  have hb8 := daysInMonth_le_31 t.year t.month
  have hb9 := d.ms_lb
  have hb10 := d.ms_ub
  have hb11 := one_le_daysInMonth t.year t.month
  constructor
  · rintro ⟨h1, h2⟩
    rw [hs, hd] at h1
    rw [he, hd] at h2
    simp only [msPerDay] at h1 h2
    omega
  · rintro ⟨hy, hm⟩
    rw [hs, he, hd, hy, hm]
    rw [hy, hm] at hb6
    simp only [msPerDay]
    omega

def exFeb29 : Expense := ⟨"id-3", 20, .Others, "pre-month", date20240229, .Cash⟩

def exMar31 : Expense := ⟨"id-4", 30, .Rental, "rent", date20240331, .UPI⟩

def exFuture : Expense :=
  ⟨"id-5", 40, .Entertainment, "future", date20300101, .CreditCard⟩

/-- Claim C4: with the this-month date filter, `getFilteredExpenses`
keeps exactly the records dated inside the current calendar month —
from its first day through its last day, inclusive.  In particular,
with "today" 2024-03-15, a record dated 2024-02-29 (one day before the
first day of the month) is dropped and a record dated 2024-03-31 (the
last day of the month) is kept. -/
theorem thisMonth_filter :
    (∀ (es : List Expense) (today : JsDate) (e : Expense),
        e ∈ getFilteredExpenses es today DateFilter.ThisMonth [] [] ↔
          e ∈ es ∧ e.date.year = today.year ∧ e.date.month = today.month)
      ∧ getFilteredExpenses [exFeb29] date20240315 DateFilter.ThisMonth [] []
          = []
      ∧ getFilteredExpenses [exMar31] date20240315 DateFilter.ThisMonth [] []
          = [exMar31] := by
  refine ⟨fun es today e => ?_, by decide, by decide⟩
  have hu : getFilteredExpenses es today DateFilter.ThisMonth [] [] =
      es.filter fun e =>
        jsLeb (startOfMonth today) e.date && jsLeb e.date (endOfMonth today) :=
    rfl
  rw [hu, List.mem_filter, Bool.and_eq_true, jsLeb_iff, jsLeb_iff,
    ← month_mem_iff today e.date]

set_option maxRecDepth 8000 in
/-- Claim C7: with the last-30-days date filter, `getFilteredExpenses`
keeps exactly the records dated at or after the start of today minus 30
days, with no upper bound — a record dated in the future (2030-01-01
against "today" 2024-03-15) is kept. -/
theorem last30_filter :
    (∀ (es : List Expense) (today : JsDate) (e : Expense),
        e ∈ getFilteredExpenses es today DateFilter.Last30Days [] [] ↔
          e ∈ es ∧ (subDays (startOfDay today) 30).key ≤ e.date.key)
      ∧ getFilteredExpenses [exFuture] date20240315 DateFilter.Last30Days [] []
          = [exFuture] := by
  refine ⟨fun es today e => ?_, by decide⟩
  have hu : getFilteredExpenses es today DateFilter.Last30Days [] [] =
      es.filter fun e => jsLeb (subDays (startOfDay today) 30) e.date := rfl
  rw [hu, List.mem_filter, jsLeb_iff]

/-! Monthly aggregation (claims C1 and C9). -/

/-- First day (midnight) of the calendar month with month index `k`. -/
def monthOfIdx (k : Int) : JsDate :=
  ⟨k / 12, k % 12 + 1, 1, 0, by omega,
    by have := Int.emod_lt_of_pos k (show (0 : Int) < 12 by norm_num); omega,
    le_refl 1, one_le_daysInMonth _ _, le_refl 0, by norm_num⟩

theorem monthIdx_monthOfIdx (k : Int) : (monthOfIdx k).monthIdx = k := by
  show 12 * (k / 12) + (k % 12 + 1 - 1) = k
  omega

theorem monthIdx_inj_iff (d t : JsDate) :
    d.year = t.year ∧ d.month = t.month ↔ d.monthIdx = t.monthIdx := by
  unfold JsDate.monthIdx
  have h1 := d.month_lb
  have h2 := d.month_ub
  have h3 := t.month_lb
  have h4 := t.month_ub
  omega

theorem startOfMonth_eq_monthOfIdx (d : JsDate) :
    startOfMonth d = monthOfIdx d.monthIdx := by
  have h1 := d.month_lb
  have h2 := d.month_ub
  refine JsDate.ext_fields ?_ ?_ rfl rfl
  · show d.year = (12 * d.year + (d.month - 1)) / 12
    omega
  · show d.month = (12 * d.year + (d.month - 1)) % 12 + 1
    omega

theorem addMonths_monthOfIdx (k : Int) :
    addMonths (monthOfIdx k) 1 = monthOfIdx (k + 1) := by
  refine JsDate.ext_fields ?_ ?_ ?_ rfl
  · show (12 * (k / 12) + (k % 12 + 1 - 1) + 1) / 12 = (k + 1) / 12
    omega
  · show (12 * (k / 12) + (k % 12 + 1 - 1) + 1) % 12 + 1 = (k + 1) % 12 + 1
    omega
  · show min 1 (daysInMonth _ _) = 1
    exact min_eq_left (one_le_daysInMonth _ _)

theorem key_monthOfIdx (k : Int) : (monthOfIdx k).key = k * (31 * msPerDay) := by
  show ((12 * (k / 12) + (k % 12 + 1 - 1)) * 31 + (1 - 1)) * msPerDay + 0 =
    k * (31 * msPerDay)
  have h12 : 12 * (k / 12) + (k % 12 + 1 - 1) = k := by omega
  rw [h12]
  ring

/-- The loop guard `currentDate <= endDate`, for a first-of-month
`currentDate`, is exactly a month-index comparison. -/
theorem monthOfIdx_guard_iff (k : Int) (endDate : JsDate) :
    (monthOfIdx k).key ≤ endDate.key ↔ k ≤ endDate.monthIdx := by
  constructor
  · intro h
    have := monthIdx_le_of_key_le h
    rwa [monthIdx_monthOfIdx] at this
  · intro h
    rw [key_monthOfIdx, endDate.key_decomp]
    have hr := endDate.rem_bounds
    have hmul : k * (31 * msPerDay) ≤ endDate.monthIdx * (31 * msPerDay) :=
      mul_le_mul_of_nonneg_right h (by norm_num [msPerDay])
    omega

/-- The month loop, started on the first day of month `k`, produces one
entry per month index from `k` through `endDate`'s month, in order. -/
theorem buildMonths_eq (es : List Expense) (endDate : JsDate) (n : Nat) :
    ∀ k : Int, n = (endDate.monthIdx + 1 - k).toNat →
      buildMonths es endDate (monthOfIdx k) =
        (List.range n).map fun i : Nat =>
          monthEntry es (monthOfIdx (k + (i : Int))) := by
  induction n with
  | zero =>
    intro k hk
    rw [buildMonths, dif_neg, List.range_zero, List.map_nil]
    rw [monthOfIdx_guard_iff]
    omega
  | succ n ih =>
    intro k hk
    have hle : k ≤ endDate.monthIdx := by omega
    rw [buildMonths, dif_pos ((monthOfIdx_guard_iff k endDate).mpr hle),
      addMonths_monthOfIdx, ih (k + 1) (by omega),
      List.range_succ_eq_map, List.map_cons, List.map_map]
    congr 1
    · norm_num
    · apply List.map_congr_left
      intro i _
      show monthEntry es (monthOfIdx (k + 1 + (i : Int))) =
        monthEntry es (monthOfIdx (k + ((i + 1 : Nat) : Int)))
      congr 2
      push_cast
      omega

/-- Projection of a monthly entry at a category key. -/
def catOf (md : MonthlyExpenseData) : Category → Int
  | .Rental => md.Rental
  | .Groceries => md.Groceries
  | .Entertainment => md.Entertainment
  | .Travel => md.Travel
  | .Others => md.Others

/-- Specification-side total: the sum of the amounts of the records of
month `k` and category `c`. -/
def catTotal (es : List Expense) (k : Int) (c : Category) : Int :=
  ((es.filter fun e =>
      decide (e.date.monthIdx = k) && decide (e.category = c)).map
    Expense.amount).sum

/-- Specification-side total: the sum of the amounts of the records of
month `k`. -/
def monthTotal (es : List Expense) (k : Int) : Int :=
  ((es.filter fun e => decide (e.date.monthIdx = k)).map Expense.amount).sum

/-- The month-bucket test of the aggregation loop holds exactly for the
records of the entry's calendar month. -/
theorem bucket_cond_iff (cd d : JsDate) :
    (jsLeb (startOfMonth cd) d && jsLeb d (endOfMonth cd)) = true ↔
      d.monthIdx = cd.monthIdx := by
  rw [Bool.and_eq_true, jsLeb_iff, jsLeb_iff, month_mem_iff cd d,
    monthIdx_inj_iff]

theorem catOf_addAmount (md : MonthlyExpenseData) (c' : Category) (a : Int)
    (c : Category) :
    catOf (addAmount md c' a) c =
      if c' = c then catOf md c + a else catOf md c := by
  cases c' <;> cases c <;> simp [addAmount, catOf]

theorem month_addAmount (md : MonthlyExpenseData) (c : Category) (a : Int) :
    (addAmount md c a).month = md.month := by
  cases c <;> rfl

theorem catTotal_cons (e : Expense) (t : List Expense) (k : Int)
    (c : Category) :
    catTotal (e :: t) k c =
      (if e.date.monthIdx = k ∧ e.category = c then e.amount else 0)
        + catTotal t k c := by
  simp only [catTotal, List.filter_cons]
  by_cases h1 : e.date.monthIdx = k <;> by_cases h2 : e.category = c <;>
    simp [h1, h2]

theorem monthTotal_cons (e : Expense) (t : List Expense) (k : Int) :
    monthTotal (e :: t) k =
      (if e.date.monthIdx = k then e.amount else 0) + monthTotal t k := by
  simp only [monthTotal, List.filter_cons]
  by_cases h1 : e.date.monthIdx = k <;> simp [h1]

theorem foldl_monthEntry_cat (cd : JsDate) (es : List Expense) :
    ∀ (md : MonthlyExpenseData) (c : Category),
      catOf (es.foldl
          (fun md e =>
            if jsLeb (startOfMonth cd) e.date && jsLeb e.date (endOfMonth cd)
            then addAmount md e.category e.amount
            else md) md) c
        = catOf md c + catTotal es cd.monthIdx c := by
  induction es with
  | nil =>
    intro md c
    simp [catTotal]
  | cons e t ih =>
    intro md c
    rw [List.foldl_cons, catTotal_cons]
    by_cases h : (jsLeb (startOfMonth cd) e.date
        && jsLeb e.date (endOfMonth cd)) = true
    · have hm : e.date.monthIdx = cd.monthIdx := (bucket_cond_iff cd e.date).mp h
      rw [if_pos h, ih, catOf_addAmount]
      by_cases hc : e.category = c
      · rw [if_pos hc, if_pos ⟨hm, hc⟩]
        ring
      · rw [if_neg hc, if_neg (fun hx => hc hx.2)]
        ring
    · have hm : ¬ e.date.monthIdx = cd.monthIdx := fun hx =>
        h ((bucket_cond_iff cd e.date).mpr hx)
      rw [Bool.not_eq_true] at h
      simp only [h, Bool.false_eq_true, if_false]
      rw [ih, if_neg (fun hx => hm hx.1)]
      ring

theorem foldl_monthEntry_month (cd : JsDate) (es : List Expense) :
    ∀ md : MonthlyExpenseData,
      (es.foldl
          (fun md e =>
            if jsLeb (startOfMonth cd) e.date && jsLeb e.date (endOfMonth cd)
            then addAmount md e.category e.amount
            else md) md).month = md.month := by
  induction es with
  | nil =>
    intro md
    rfl
  | cons e t ih =>
    intro md
    rw [List.foldl_cons]
    by_cases h : (jsLeb (startOfMonth cd) e.date
        && jsLeb e.date (endOfMonth cd)) = true
    · rw [if_pos h, ih, month_addAmount]
    · rw [Bool.not_eq_true] at h
      simp only [h, Bool.false_eq_true, if_false]
      exact ih md

/-- Each month entry's category bucket is the sum of the amounts of the
records of that month and category (so zero when absent). -/
theorem monthEntry_cat (es : List Expense) (cd : JsDate) (c : Category) :
    catOf (monthEntry es cd) c = catTotal es cd.monthIdx c := by
  unfold monthEntry
  rw [foldl_monthEntry_cat]
  cases c <;> simp [catOf]

/-- Each month entry is labeled with the short month+year display
label. -/
theorem monthEntry_month (es : List Expense) (cd : JsDate) :
    (monthEntry es cd).month = monthLabel cd := by
  unfold monthEntry
  rw [foldl_monthEntry_month]

/-- Smallest month index among the records (head and tail given
separately, matching the non-empty pattern of the code). -/
def minMonthIdxA (e0 : Expense) (rest : List Expense) : Int :=
  rest.foldl (fun a e => min a e.date.monthIdx) e0.date.monthIdx

/-- Largest month index among the records. -/
def maxMonthIdxA (e0 : Expense) (rest : List Expense) : Int :=
  rest.foldl (fun a e => max a e.date.monthIdx) e0.date.monthIdx

theorem jsMinD_monthIdx (a b : JsDate) :
    (jsMinD a b).monthIdx = min a.monthIdx b.monthIdx := by
  unfold jsMinD
  by_cases h : a.key ≤ b.key
  · rw [if_pos h]
    exact (min_eq_left (monthIdx_le_of_key_le h)).symm
  · rw [if_neg h]
    exact (min_eq_right (monthIdx_le_of_key_le (le_of_not_le h))).symm

theorem jsMaxD_monthIdx (a b : JsDate) :
    (jsMaxD a b).monthIdx = max a.monthIdx b.monthIdx := by
  unfold jsMaxD
  by_cases h : b.key ≤ a.key
  · rw [if_pos h]
    exact (max_eq_left (monthIdx_le_of_key_le h)).symm
  · rw [if_neg h]
    exact (max_eq_right (monthIdx_le_of_key_le (le_of_not_le h))).symm

theorem foldl_jsMinD_monthIdx (l : List Expense) :
    ∀ acc : JsDate,
      (l.foldl (fun a e => jsMinD a e.date) acc).monthIdx =
        l.foldl (fun a e => min a e.date.monthIdx) acc.monthIdx := by
  induction l with
  | nil => intro acc; rfl
  | cons e t ih =>
    intro acc
    rw [List.foldl_cons, List.foldl_cons, ih, jsMinD_monthIdx]

theorem foldl_jsMaxD_monthIdx (l : List Expense) :
    ∀ acc : JsDate,
      (l.foldl (fun a e => jsMaxD a e.date) acc).monthIdx =
        l.foldl (fun a e => max a e.date.monthIdx) acc.monthIdx := by
  induction l with
  | nil => intro acc; rfl
  | cons e t ih =>
    intro acc
    rw [List.foldl_cons, List.foldl_cons, ih, jsMaxD_monthIdx]

/-- The aggregation on a non-empty collection: one entry per month
index from the earliest record's month through the latest record's
month, in chronological order. -/
theorem getMonthly_eq (e0 : Expense) (rest : List Expense) :
    getMonthlyExpensesByCategory (e0 :: rest) =
      (List.range
          ((maxMonthIdxA e0 rest - minMonthIdxA e0 rest + 1).toNat)).map
        fun i : Nat =>
          monthEntry (e0 :: rest)
            (monthOfIdx (minMonthIdxA e0 rest + (i : Int))) := by
  have hmin : (rest.foldl (fun acc e => jsMinD acc e.date) e0.date).monthIdx
      = minMonthIdxA e0 rest := foldl_jsMinD_monthIdx rest e0.date
  have hmax : (endOfMonth
        (rest.foldl (fun acc e => jsMaxD acc e.date) e0.date)).monthIdx
      = maxMonthIdxA e0 rest := foldl_jsMaxD_monthIdx rest e0.date
  show buildMonths (e0 :: rest)
      (endOfMonth (rest.foldl (fun acc e => jsMaxD acc e.date) e0.date))
      (startOfMonth (rest.foldl (fun acc e => jsMinD acc e.date) e0.date)) = _
  rw [startOfMonth_eq_monthOfIdx, hmin]
  exact buildMonths_eq (e0 :: rest) _
    ((maxMonthIdxA e0 rest - minMonthIdxA e0 rest + 1).toNat)
    (minMonthIdxA e0 rest) (by rw [hmax]; omega)

theorem foldl_min_le (l : List Expense) :
    ∀ a : Int, l.foldl (fun a e => min a e.date.monthIdx) a ≤ a
      ∧ ∀ e ∈ l, l.foldl (fun a e => min a e.date.monthIdx) a ≤
          e.date.monthIdx := by
  induction l with
  | nil => intro a; exact ⟨le_refl a, by simp⟩
  | cons e t ih =>
    intro a
    rw [List.foldl_cons]
    refine ⟨le_trans (ih _).1 (min_le_left _ _), fun e' he' => ?_⟩
    rcases List.mem_cons.mp he' with h | h
    · subst h
      exact le_trans (ih _).1 (min_le_right _ _)
    · exact (ih _).2 e' h

theorem le_foldl_max (l : List Expense) :
    ∀ a : Int, a ≤ l.foldl (fun a e => max a e.date.monthIdx) a
      ∧ ∀ e ∈ l, e.date.monthIdx ≤
          l.foldl (fun a e => max a e.date.monthIdx) a := by
  induction l with
  | nil => intro a; exact ⟨le_refl a, by simp⟩
  | cons e t ih =>
    intro a
    rw [List.foldl_cons]
    refine ⟨le_trans (le_max_left _ _) (ih _).1, fun e' he' => ?_⟩
    rcases List.mem_cons.mp he' with h | h
    · subst h
      exact le_trans (le_max_right _ _) (ih _).1
    · exact (ih _).2 e' h

theorem minMonthIdxA_le (e0 : Expense) (rest : List Expense) :
    ∀ e ∈ e0 :: rest, minMonthIdxA e0 rest ≤ e.date.monthIdx := by
  intro e he
  rcases List.mem_cons.mp he with h | h
  · subst h
    exact (foldl_min_le rest e.date.monthIdx).1
  · exact (foldl_min_le rest e0.date.monthIdx).2 e h

theorem le_maxMonthIdxA (e0 : Expense) (rest : List Expense) :
    ∀ e ∈ e0 :: rest, e.date.monthIdx ≤ maxMonthIdxA e0 rest := by
  intro e he
  rcases List.mem_cons.mp he with h | h
  · subst h
    exact (le_foldl_max rest e.date.monthIdx).1
  · exact (le_foldl_max rest e0.date.monthIdx).2 e h

theorem list_map_range_sum (f : Nat → Int) (n : Nat) :
    ((List.range n).map f).sum = ∑ i ∈ Finset.range n, f i := by
  induction n with
  | zero => simp
  | succ n ih =>
    rw [List.range_succ, List.map_append, List.sum_append,
      Finset.sum_range_succ, ih]
    simp

theorem sum_range_ite (n : Nat) (j k0 a : Int) (hlo : k0 ≤ j)
    (hhi : j < k0 + n) :
    (∑ i ∈ Finset.range n, if j = k0 + (i : Int) then a else 0) = a := by
  have hcong : ∀ i ∈ Finset.range n,
      (if j = k0 + (i : Int) then a else 0) =
        (if i = (j - k0).toNat then a else 0) := by
    intro i hi
    have hi' := Finset.mem_range.mp hi
    by_cases hcase : i = (j - k0).toNat
    · rw [if_pos (by omega), if_pos hcase]
    · rw [if_neg (fun heq => hcase (by omega)), if_neg hcase]
  rw [Finset.sum_congr rfl hcong,
    Finset.sum_ite_eq' (Finset.range n) ((j - k0).toNat) fun _ => a,
    if_pos (Finset.mem_range.mpr (by omega))]

theorem sum_monthTotal (k0 : Int) (n : Nat) (es : List Expense)
    (h : ∀ e ∈ es, k0 ≤ e.date.monthIdx ∧ e.date.monthIdx < k0 + n) :
    (∑ i ∈ Finset.range n, monthTotal es (k0 + (i : Int))) =
      (es.map Expense.amount).sum := by
  induction es with
  | nil => simp [monthTotal]
  | cons e t ih =>
    have he := h e (List.mem_cons_self e t)
    simp only [monthTotal_cons]
    rw [Finset.sum_add_distrib,
      ih fun e' he' => h e' (List.mem_cons_of_mem e he'),
      sum_range_ite n e.date.monthIdx k0 e.amount he.1 he.2]
    simp

theorem catTotal_sum5 (es : List Expense) (k : Int) :
    catTotal es k .Rental + catTotal es k .Groceries
      + catTotal es k .Entertainment + catTotal es k .Travel
      + catTotal es k .Others = monthTotal es k := by
  induction es with
  | nil => simp [catTotal, monthTotal]
  | cons e t ih =>
    simp only [catTotal_cons, monthTotal_cons]
    rw [← ih]
    cases hc : e.category <;> by_cases hk : e.date.monthIdx = k <;>
      simp [hc, hk] <;> ring

theorem monthEntry_sum5 (es : List Expense) (k : Int) :
    (monthEntry es (monthOfIdx k)).Rental
      + (monthEntry es (monthOfIdx k)).Groceries
      + (monthEntry es (monthOfIdx k)).Entertainment
      + (monthEntry es (monthOfIdx k)).Travel
      + (monthEntry es (monthOfIdx k)).Others = monthTotal es k := by
  have hR : (monthEntry es (monthOfIdx k)).Rental =
      catTotal es (monthOfIdx k).monthIdx .Rental :=
    monthEntry_cat es (monthOfIdx k) .Rental
  have hG : (monthEntry es (monthOfIdx k)).Groceries =
      catTotal es (monthOfIdx k).monthIdx .Groceries :=
    monthEntry_cat es (monthOfIdx k) .Groceries
  have hE : (monthEntry es (monthOfIdx k)).Entertainment =
      catTotal es (monthOfIdx k).monthIdx .Entertainment :=
    monthEntry_cat es (monthOfIdx k) .Entertainment
  have hT : (monthEntry es (monthOfIdx k)).Travel =
      catTotal es (monthOfIdx k).monthIdx .Travel :=
    monthEntry_cat es (monthOfIdx k) .Travel
  have hO : (monthEntry es (monthOfIdx k)).Others =
      catTotal es (monthOfIdx k).monthIdx .Others :=
    monthEntry_cat es (monthOfIdx k) .Others
  rw [monthIdx_monthOfIdx] at hR hG hE hT hO
  rw [hR, hG, hE, hT, hO]
  exact catTotal_sum5 es k

/-- Claim C1: the aggregation returns the empty sequence on the empty
collection; on a non-empty collection it returns exactly one entry per
calendar month from the earliest record's month through the latest
record's month, in chronological order; each entry carries the
short-label month name and, for each of the five categories, the total
of the amounts of that month's records of that category (zero when
absent).  On the two-record example (2024-01-15, 100, Groceries and
2024-03-10, 50, Travel) it returns exactly the Jan/Feb/Mar 2024 entries
with Jan.Groceries = 100, Feb all-zero, Mar.Travel = 50 and every other
field zero. -/
theorem monthly_by_category_spec :
    getMonthlyExpensesByCategory [] = []
      ∧ (∀ (e0 : Expense) (rest : List Expense),
          getMonthlyExpensesByCategory (e0 :: rest) =
            (List.range
                ((maxMonthIdxA e0 rest - minMonthIdxA e0 rest + 1).toNat)).map
              fun i : Nat =>
                monthEntry (e0 :: rest)
                  (monthOfIdx (minMonthIdxA e0 rest + (i : Int))))
      ∧ (∀ (es : List Expense) (k : Int) (c : Category),
          catOf (monthEntry es (monthOfIdx k)) c = catTotal es k c)
      ∧ (∀ (es : List Expense) (k : Int),
          (monthEntry es (monthOfIdx k)).month = monthLabel (monthOfIdx k))
      ∧ getMonthlyExpensesByCategory [exGroceries, exTravel] =
          [⟨"Jan 2024", 0, 100, 0, 0, 0⟩, ⟨"Feb 2024", 0, 0, 0, 0, 0⟩,
            ⟨"Mar 2024", 0, 0, 0, 50, 0⟩] := by
  refine ⟨rfl, getMonthly_eq, fun es k c => ?_, fun es k => monthEntry_month _ _,
    ?_⟩
  · rw [monthEntry_cat, monthIdx_monthOfIdx]
  · rw [getMonthly_eq]
    decide

/-- Claim C9: on a non-empty collection, the grand total over all
monthly entries and all five category buckets equals the sum of the
amounts of all records — each record is counted in exactly one monthly
entry, in exactly its category's bucket. -/
theorem monthly_totals_conserved (e0 : Expense) (rest : List Expense) :
    ((getMonthlyExpensesByCategory (e0 :: rest)).map fun md =>
        md.Rental + md.Groceries + md.Entertainment + md.Travel
          + md.Others).sum
      = ((e0 :: rest).map Expense.amount).sum := by
  rw [getMonthly_eq, List.map_map]
  have hmap : ((List.range
      ((maxMonthIdxA e0 rest - minMonthIdxA e0 rest + 1).toNat)).map
        ((fun md : MonthlyExpenseData =>
            md.Rental + md.Groceries + md.Entertainment + md.Travel
              + md.Others) ∘
          fun i : Nat =>
            monthEntry (e0 :: rest)
              (monthOfIdx (minMonthIdxA e0 rest + (i : Int))))) =
      (List.range
        ((maxMonthIdxA e0 rest - minMonthIdxA e0 rest + 1).toNat)).map
        fun i : Nat =>
          monthTotal (e0 :: rest) (minMonthIdxA e0 rest + (i : Int)) :=
    List.map_congr_left fun i _ => monthEntry_sum5 (e0 :: rest) _
  rw [hmap, list_map_range_sum]
  apply sum_monthTotal
  intro e he
  have h1 := minMonthIdxA_le e0 rest e he
  have h2 := le_maxMonthIdxA e0 rest e he
  have h3 := minMonthIdxA_le e0 rest e0 (List.mem_cons_self e0 rest)
  have h4 := le_maxMonthIdxA e0 rest e0 (List.mem_cons_self e0 rest)
  omega

/-! Persistence round trip (claim C3). -/

theorem isDigit_digitChar (n : Nat) : (digitChar n).isDigit = true := by
  unfold digitChar
  split_ifs <;> rfl

theorem digitVal_digitChar (n : Nat) (h : n ≤ 9) :
    digitVal (digitChar n) = n := by
  interval_cases n <;> rfl

theorem parse_pad2 (n : Nat) (h : n ≤ 99) :
    10 * digitVal (digitChar (n / 10)) + digitVal (digitChar (n % 10)) = n := by
  rw [digitVal_digitChar _ (by omega), digitVal_digitChar _ (by omega)]
  omega

theorem parse_pad3 (n : Nat) (h : n ≤ 999) :
    100 * digitVal (digitChar (n / 100)) +
      10 * digitVal (digitChar (n / 10 % 10)) +
      digitVal (digitChar (n % 10)) = n := by
  rw [digitVal_digitChar _ (by omega), digitVal_digitChar _ (by omega),
    digitVal_digitChar _ (by omega)]
  omega

theorem parse_pad4 (n : Nat) (h : n ≤ 9999) :
    1000 * digitVal (digitChar (n / 1000)) +
      100 * digitVal (digitChar (n / 100 % 10)) +
      10 * digitVal (digitChar (n / 10 % 10)) +
      digitVal (digitChar (n % 10)) = n := by
  rw [digitVal_digitChar _ (by omega), digitVal_digitChar _ (by omega),
    digitVal_digitChar _ (by omega), digitVal_digitChar _ (by omega)]
  omega

/-- Parsing the ISO string printed for a four-digit-year date recovers
the date exactly, to the millisecond. -/
theorem parse_isoString (d : JsDate) (h0 : 0 ≤ d.year)
    (h1 : d.year ≤ 9999) : parseDate (isoString d) = some d := by
  have hy : d.year.toNat ≤ 9999 := by omega
  have hmo1 := d.month_lb
  have hmo2 := d.month_ub
  have hdy1 := d.day_lb
  have hdy2 := d.day_ub
  have hms1 := d.ms_lb
  have hms2 := d.ms_ub
  show parseIsoChars (isoChars d) = some d
  simp only [isoChars, pad4, pad3, pad2, List.cons_append, List.nil_append,
    parseIsoChars, isDigit_digitChar, Bool.and_self, Bool.true_and,
    beq_self_eq_true, if_true]
  have hdy3 : d.day ≤ 31 := le_trans hdy2 (daysInMonth_le_31 d.year d.month)
  simp only [parse_pad4 d.year.toNat hy, parse_pad2 d.month.toNat (by omega),
    parse_pad2 d.day.toNat (by omega),
    parse_pad2 (d.ms.toNat / 3600000) (by omega),
    parse_pad2 (d.ms.toNat % 3600000 / 60000) (by omega),
    parse_pad2 (d.ms.toNat % 60000 / 1000) (by omega),
    parse_pad3 (d.ms.toNat % 1000) (by omega),
    Int.toNat_of_nonneg h0,
    Int.toNat_of_nonneg (show (0 : Int) ≤ d.month by omega),
    Int.toNat_of_nonneg (show (0 : Int) ≤ d.day by omega)]
  rw [dif_pos ⟨by omega, by omega, by omega, hdy2, by omega, by omega,
    by omega, by omega⟩]
  refine congrArg some (JsDate.ext_fields rfl rfl rfl ?_)
  show (d.ms.toNat / 3600000 : Int) * 3600000 +
      (d.ms.toNat % 3600000 / 60000 : Int) * 60000 +
      (d.ms.toNat % 60000 / 1000 : Int) * 1000 +
      (d.ms.toNat % 1000 : Int) = d.ms
  omega

theorem categoryOfName_name (c : Category) :
    categoryOfName (categoryName c) = some c := by
  cases c <;> rfl

theorem paymentModeOfName_name (p : PaymentMode) :
    paymentModeOfName (paymentModeName p) = some p := by
  cases p <;> rfl

/-- Loading the serialized form of one record rebuilds the record
exactly, including its date to the millisecond. -/
theorem decode_encode (e : Expense) (h0 : 0 ≤ e.date.year)
    (h1 : e.date.year ≤ 9999) :
    decodeLoaded (loadItem (encodeExpense e)) = some e := by
  have hdate : jsNewDate (some (.str (isoString e.date))) =
      ParsedDateVal.ok e.date := by
    show (match parseDate (isoString e.date) with
      | some d => ParsedDateVal.ok d
      | none => ParsedDateVal.invalid) = _
    rw [parse_isoString e.date h0 h1]
  have hli : loadItem (encodeExpense e) =
      ⟨[("id", .str e.id), ("amount", .num e.amount),
        ("category", .str (categoryName e.category)),
        ("notes", .str e.notes),
        ("paymentMode", .str (paymentModeName e.paymentMode))],
        ParsedDateVal.ok e.date⟩ := by
    rw [← hdate]
    rfl
  rw [hli]
  show (match categoryOfName (categoryName e.category),
      paymentModeOfName (paymentModeName e.paymentMode) with
    | some cat, some pm =>
      some (⟨e.id, e.amount, cat, e.notes, e.date, pm⟩ : Expense)
    | _, _ => none) = some e
  rw [categoryOfName_name, paymentModeOfName_name]

/-- Claim C3: serializing the full collection to the durable slot and
deserializing it back at startup reproduces an equal collection — the
same records in the same order, with dates equal to the millisecond
(years in the four-digit ISO range). -/
theorem persistence_roundtrip (es : List Expense)
    (h : ∀ e ∈ es, 0 ≤ e.date.year ∧ e.date.year ≤ 9999) :
    ((loadExpenses (saveExpenses es)).1).map decodeLoaded = es.map some := by
  show ((es.map encodeExpense).map loadItem).map decodeLoaded = es.map some
  rw [List.map_map, List.map_map]
  exact List.map_congr_left fun e he =>
    decode_encode e (h e he).1 (h e he).2

/-- Witness for claim C3 at a concrete one-record collection. -/
theorem persistence_roundtrip_witness :
    ((loadExpenses (saveExpenses [exGroceries])).1).map decodeLoaded =
      [some exGroceries] :=
  persistence_roundtrip [exGroceries] (by decide)

end ExpenseTracker
